import Mathlib

/-!
Shallow embedding of the mixal MIX-machine emulator (src/word.rs,
src/instruction.rs, src/instruction_functions.rs, src/computer.rs).

Conventions of the embedding:
- Rust u8 bytes are modelled as Nat; the five-byte array of a word is a
  List Nat (length 5 for any word the Rust type system can build, carried
  as a hypothesis where a theorem needs it).
- Rust i64/i128 values are modelled as Int.  Rust % on signed integers is
  truncated (Int.tmod), an as-u8 cast keeps the low 8 bits (Int.emod 256),
  and an arithmetic right shift by 8 is flooring division (Int.fdiv 256).
- Functions that can panic in Rust (array-index underflow, invalid index
  register, sign-only arithmetic field) return Option, with none standing
  for the panic/abort.
- The 4000-word memory is modelled as a total function Nat -> Word;
  instruction execution guards every memory access with an explicit
  bound check, mirroring the slice-index panic.
-/

/-- Word: five-byte sign-magnitude value (src/word.rs). -/
structure Word where
  positive : Bool
  bytes : List Nat
  deriving DecidableEq, Repr

namespace Word

/-- Word::default: positive zero (src/word.rs line 18). -/
def default : Word := ⟨true, [0, 0, 0, 0, 0]⟩

end Word

/-- adjusted_field_specification (src/instruction.rs lines 100-104):
returns (zero_included, only_zero, (l, r)) with l = max(L,1)-1, r = max(R,1)-1. -/
def adjusted_field_specification (field_specification : Nat × Nat) :
    Bool × Bool × (Nat × Nat) :=
  let (left, right) := field_specification
  (left == 0, right == 0, (max left 1 - 1, max right 1 - 1))

namespace Word

/-- Word::from_value (src/word.rs lines 22-31).  Note the source computes
the sign as value < 0 (not value >= 0); the loop writes bytes 4,3,2,1,0
with (value % 256) as u8 followed by an arithmetic shift right by 8. -/
def from_value (value : Int) : Word :=
  let b4 := (value.emod 256).toNat
  let v1 := value.fdiv 256
  let b3 := (v1.emod 256).toNat
  let v2 := v1.fdiv 256
  let b2 := (v2.emod 256).toNat
  let v3 := v2.fdiv 256
  let b1 := (v3.emod 256).toNat
  let v4 := v3.fdiv 256
  let b0 := (v4.emod 256).toNat
  ⟨decide (value < 0), [b0, b1, b2, b3, b4]⟩

/-- Word::field_value (src/word.rs lines 56-66): big-endian read of bytes
l..=r, negated only when zero_included and the word is negative. -/
def field_value (w : Word) (field_specification : Nat × Nat) : Int :=
  let (zero_included, only_zero, (l, r)) :=
    adjusted_field_specification field_specification
  if only_zero then 0
  else
    let start : Int := (w.bytes.getD l 0 : Nat)
    let result := (List.range (r - l)).foldl
      (fun acc i => acc * 256 + ((w.bytes.getD (l + 1 + i) 0 : Nat) : Int)) start
    result * (if zero_included && !w.positive then -1 else 1)

/-- Word::address (src/word.rs line 33): field_value (1,2) as usize. -/
def address (w : Word) : Nat := (w.field_value (1, 2)).toNat

/-- Word::index (src/word.rs line 37): byte 2. -/
def index (w : Word) : Nat := w.bytes.getD 2 0

/-- Word::field (src/word.rs line 42): byte 3. -/
def field (w : Word) : Nat := w.bytes.getD 3 0

/-- Word::opcode (src/word.rs line 46): byte 4. -/
def opcode (w : Word) : Nat := w.bytes.getD 4 0

/-- Word::negate (src/word.rs line 50): flip the sign flag. -/
def negate (w : Word) : Word := ⟨!w.positive, w.bytes⟩

end Word

/-- Helper for the byte-copy loops: starting at index i, set n consecutive
entries of dst, entry j receiving f j.  Models for-loops of the shape
for i in a..=b with an index-dependent right-hand side. -/
def set_range (dst : List Nat) (f : Nat → Nat) (i : Nat) : Nat → List Nat
  | 0 => dst
  | n + 1 => set_range (dst.set i (f i)) f (i + 1) n

/-- copy_word_fields (src/instruction.rs lines 112-118): the
word_zero_condition macro sets the sign when zero_included and returns
early when additionally only_zero; then bytes l..=r are copied. -/
def copy_word_fields (from_word to_word : Word)
    (field_specification : Nat × Nat) : Word :=
  let (zero_included, only_zero, (l, r)) :=
    adjusted_field_specification field_specification
  let t := if zero_included then { to_word with positive := from_word.positive }
           else to_word
  if zero_included && only_zero then t
  else { t with bytes := set_range t.bytes (fun i => from_word.bytes.getD i 0) l (r + 1 - l) }

/-- copy_word_fields_i (src/instruction.rs lines 132-141): panics (none)
when l and r are both in 0..=2 and the sign is not included; otherwise
copies bytes (max l 3)..=(min r 4) under the same zero condition. -/
def copy_word_fields_i (from_word to_word : Word)
    (field_specification : Nat × Nat) : Option Word :=
  let (zero_included, only_zero, (l, r)) :=
    adjusted_field_specification field_specification
  if l ≤ 2 && r ≤ 2 && !zero_included then none
  else
    let t := if zero_included then { to_word with positive := from_word.positive }
             else to_word
    if zero_included && only_zero then some t
    else
      let b := set_range t.bytes (fun i => from_word.bytes.getD i 0) (max l 3) (min r 4 + 1 - max l 3)
      some { t with bytes := b }

/-- store_operation (src/instruction.rs lines 154-162): after the zero
condition, offset_l = 4 - (r - l) and bytes l..=r of the destination
receive bytes offset_l..=4 of the source.  The usize subtractions r - l and
4 - (r - l) panic (none) when r < l or r - l > 4. -/
def store_operation (from_word to_word : Word)
    (field_specification : Nat × Nat) : Option Word :=
  let (zero_included, only_zero, (l, r)) :=
    adjusted_field_specification field_specification
  let t := if zero_included then { to_word with positive := from_word.positive }
           else to_word
  if zero_included && only_zero then some t
  else if r < l then none
  else if 4 < r - l then none
  else
    let offset_l := 4 - (r - l)
    let b := set_range t.bytes (fun i => from_word.bytes.getD (offset_l + (i - l)) 0) l (r - l + 1)
    some { t with bytes := b }

/-- Helper for the big-endian byte-write loops of add_words and
multiply_words: write n bytes of v at indices r, r-1, ..., shifting v
right by 8 each step; returns the updated list and the remaining value. -/
def write_bytes_rev (bytes : List Nat) (v : Nat) (r : Nat) : Nat → List Nat × Nat
  | 0 => (bytes, v)
  | n + 1 => write_bytes_rev (bytes.set r (v % 256)) (v / 256) (r - 1) n

/-- Helper mirroring the same loop when the Rust value is a signed integer
(Word::from_value, divide_words): byte = (v % 256) as u8 = v.emod 256,
then an arithmetic right shift by 8 = v.fdiv 256. -/
def write_bytes_rev_int (bytes : List Nat) (v : Int) (r : Nat) :
    Nat → List Nat × Int
  | 0 => (bytes, v)
  | n + 1 => write_bytes_rev_int (bytes.set r (v.emod 256).toNat) (v.fdiv 256) (r - 1) n

/-- add_words (src/instruction.rs lines 201-227): sums the field-windowed
values; panics (none) when only_zero; sets the sign from the sum only when
zero_included; writes the absolute sum big-endian into bytes l..=r and
reports overflow when a remainder is left. -/
def add_words (word1 word2 : Word) (field_specification : Nat × Nat) :
    Option (Word × Bool) :=
  let word1_value := word1.field_value field_specification
  let word2_value := word2.field_value field_specification
  let sum : Int := word1_value + word2_value
  let (zero_included, only_zero, (l, r)) :=
    adjusted_field_specification field_specification
  if only_zero then none
  else
    let word := if zero_included then { Word.default with positive := decide (0 ≤ sum) }
                else Word.default
    let (bytes, rest) := write_bytes_rev word.bytes sum.natAbs r (r + 1 - l)
    some ({ word with bytes := bytes }, decide (rest ≠ 0))

/-- multiply_words (src/instruction.rs lines 230-262): full (0,5) value of
word1 times the field-windowed value of word2; panics (none) when
only_zero; the sign goes to both halves only when zero_included; the
absolute product is written big-endian, low five bytes into the lower
word, next five into the upper; returns (upper, lower). -/
def multiply_words (word1 word2 : Word) (field_specification : Nat × Nat) :
    Option (Word × Word) :=
  let word1_value := word1.field_value (0, 5)
  let word2_value := word2.field_value field_specification
  let product : Int := word1_value * word2_value
  let (zero_included, only_zero, _) :=
    adjusted_field_specification field_specification
  if only_zero then none
  else
    let sgn := decide (0 ≤ product)
    let word_lower := if zero_included then { Word.default with positive := sgn }
                      else Word.default
    let word_upper := if zero_included then { Word.default with positive := sgn }
                      else Word.default
    let (lower_bytes, p5) := write_bytes_rev word_lower.bytes product.natAbs 4 5
    let (upper_bytes, _) := write_bytes_rev word_upper.bytes p5 4 5
    some ({ word_upper with bytes := upper_bytes },
          { word_lower with bytes := lower_bytes })

/-- Rust as-i64 cast of an i128 value: keep the low 64 bits, signed. -/
def wrap_i64 (x : Int) : Int := (x + 2 ^ 63).emod (2 ^ 64) - 2 ^ 63

/-- divide_words (src/instruction.rs lines 265-299): if the field-windowed
divisor value is zero, returns default words and the divide_by_zero flag
true before anything else; otherwise builds the 80-bit dividend
(hi.field_value(1,5) << 40) | lo.field_value(1,5), divides with Rust
truncated i128 division, panics (none) when only_zero, forces the
remainder sign to hi's sign, sets the quotient sign to
(hi.positive == divisor.positive) when zero_included, and writes both
i64 values big-endian into the five bytes. -/
def divide_words (word1 word2 word3 : Word)
    (field_specification : Nat × Nat) : Option (Word × Word × Bool) :=
  let word_rem := Word.default
  let word_div := Word.default
  let divisor_value : Int := word3.field_value field_specification
  if divisor_value = 0 then some (word_rem, word_div, true)
  else
    let word1_value := (word1.field_value (1, 5)).toNat
    let word_value : Int := ((word1_value <<< 40) ||| (word2.field_value (1, 5)).toNat : Nat)
    let dividend : Int := wrap_i64 (word_value.tdiv divisor_value)
    let remainder : Int := wrap_i64 (word_value.tmod divisor_value)
    let (_, only_zero, _) := adjusted_field_specification field_specification
    if only_zero then none
    else
      let (zero_included, _, _) := adjusted_field_specification field_specification
      let word_rem := { word_rem with positive := word1.positive }
      let word_div := if zero_included then
          { word_div with positive := word1.positive == word3.positive }
        else word_div
      let (rem_bytes, _) := write_bytes_rev_int word_rem.bytes remainder 4 5
      let (div_bytes, _) := write_bytes_rev_int word_div.bytes dividend 4 5
      some ({ word_div with bytes := div_bytes },
            { word_rem with bytes := rem_bytes }, false)

/-- ComparisonFlag (src/computer.rs lines 17-22). -/
inductive ComparisonFlag where
  | less
  | equal
  | greater
  deriving DecidableEq, Repr

/-- Helper for the byte-comparison loop of compare_words: scan n indices
starting at i, first difference decides. -/
def compare_loop (b1 b2 : List Nat) (i : Nat) : Nat → ComparisonFlag
  | 0 => ComparisonFlag.equal
  | n + 1 =>
    if b1.getD i 0 > b2.getD i 0 then ComparisonFlag.greater
    else if b1.getD i 0 < b2.getD i 0 then ComparisonFlag.less
    else compare_loop b1 b2 (i + 1) n

/-- compare_words (src/instruction.rs lines 302-326): equal when
only_zero; sign decides when zero_included and signs differ; otherwise
first differing byte in left..=right decides. -/
def compare_words (word1 word2 : Word) (field_specification : Nat × Nat) :
    ComparisonFlag :=
  let (zero_included, only_zero, (left, right)) :=
    adjusted_field_specification field_specification
  if only_zero then ComparisonFlag.equal
  else if zero_included && (word1.positive != word2.positive) then
    (if word1.positive then ComparisonFlag.greater else ComparisonFlag.less)
  else compare_loop word1.bytes word2.bytes left (right + 1 - left)

/-- Helper for single_word_left_shift: entry i of dst receives
src[(amount + i) % 5], for n entries starting at index i. -/
def gather_mod5 (src dst : List Nat) (amount i : Nat) : Nat → List Nat
  | 0 => dst
  | n + 1 =>
    gather_mod5 src (dst.set i (src.getD ((amount + i) % 5) 0)) amount (i + 1) n

/-- Helper for single_word_right_shift: entry (amount + i) % 5 of dst
receives src[i], for n entries starting at index i. -/
def scatter_mod5 (src dst : List Nat) (amount i : Nat) : Nat → List Nat
  | 0 => dst
  | n + 1 =>
    scatter_mod5 src (dst.set ((amount + i) % 5) (src.getD i 0)) amount (i + 1) n

/-- single_word_left_shift (src/instruction_functions.rs lines 296-307):
bytes i receive word.bytes[(amount+i)%5]; in non-cyclic mode the range
(5 - amount)..5 is zeroed — the usize subtraction 5 - amount panics
(none) when amount > 5. -/
def single_word_left_shift (word : Word) (amount : Nat) (cycle : Bool) :
    Option Word :=
  let shifted := gather_mod5 word.bytes word.bytes amount 0 5
  if cycle then some { word with bytes := shifted }
  else if 5 < amount then none
  else
    let b := set_range shifted (fun _ => 0) (5 - amount) (5 - (5 - amount))
    some { word with bytes := b }

/-- single_word_right_shift (src/instruction_functions.rs lines 318-329):
bytes (amount+i)%5 receive word.bytes[i]; in non-cyclic mode the range
0..(min amount 5) is zeroed. -/
def single_word_right_shift (word : Word) (amount : Nat) (cycle : Bool) : Word :=
  let shifted := scatter_mod5 word.bytes word.bytes amount 0 5
  if cycle then { word with bytes := shifted }
  else { word with bytes := set_range shifted (fun _ => 0) 0 (min amount 5) }

/-- Computer state (src/computer.rs lines 24-40); the 4000-word memory is
modelled as a total function, guarded at every access. -/
structure Computer where
  ra : Word
  rx : Word
  ri1 : Word
  ri2 : Word
  ri3 : Word
  ri4 : Word
  ri5 : Word
  ri6 : Word
  rj : Word
  overflow_flag : Bool
  comparison_flag : ComparisonFlag
  memory : Nat → Word
  pc : Nat

namespace Computer

/-- Computer::default (src/computer.rs lines 63-65): all-default words,
equal comparison flag, zeroed memory, pc 0. -/
def default : Computer :=
  ⟨Word.default, Word.default, Word.default, Word.default, Word.default,
   Word.default, Word.default, Word.default, Word.default, false,
   ComparisonFlag.equal, fun _ => Word.default, 0⟩

end Computer

/-- register_for_index (src/instruction.rs lines 183-197), read direction:
index 1-6 selects the corresponding index register, anything else panics
(none). -/
def register_for_index (computer : Computer) (index : Nat) : Option Word :=
  match index with
  | 1 => some computer.ri1
  | 2 => some computer.ri2
  | 3 => some computer.ri3
  | 4 => some computer.ri4
  | 5 => some computer.ri5
  | 6 => some computer.ri6
  | _ => none

/-- register_for_index, write direction: replace the selected index
register, panic (none) outside 1-6. -/
def set_register_for_index (computer : Computer) (index : Nat) (w : Word) :
    Option Computer :=
  match index with
  | 1 => some { computer with ri1 := w }
  | 2 => some { computer with ri2 := w }
  | 3 => some { computer with ri3 := w }
  | 4 => some { computer with ri4 := w }
  | 5 => some { computer with ri5 := w }
  | 6 => some { computer with ri6 := w }
  | _ => none

/-- Computer::decode_index (src/computer.rs lines 71-77): 0 gives offset
0; otherwise the selected index register's field_value (3,4) as usize;
an invalid selector panics (none) inside register_for_index. -/
def decode_index (computer : Computer) (index : Nat) : Option Nat :=
  if index = 0 then some 0
  else
    match register_for_index computer index with
    | some ri => some (ri.field_value (3, 4)).toNat
    | none => none

/-- Computer::decode_field (src/computer.rs lines 79-83):
(field / 8, field % 8). -/
def decode_field (field : Nat) : Nat × Nat := (field / 8, field % 8)

/-- Instruction: tagged union of the instruction structs of
src/instruction.rs (the boxed trait objects of the source). -/
inductive Instruction where
  | NoOperation
  | Halt
  | LoadA (address : Nat) (field_specification : Nat × Nat) (negative : Bool)
  | LoadX (address : Nat) (field_specification : Nat × Nat) (negative : Bool)
  | LoadI (index : Nat) (address : Nat) (field_specification : Nat × Nat) (negative : Bool)
  | StoreA (address : Nat) (field_specification : Nat × Nat)
  | StoreX (address : Nat) (field_specification : Nat × Nat)
  | StoreI (index : Nat) (address : Nat) (field_specification : Nat × Nat)
  | StoreJ (address : Nat) (field_specification : Nat × Nat)
  | StoreZ (address : Nat) (field_specification : Nat × Nat)
  | Add (address : Nat) (field_specification : Nat × Nat)
  | Sub (address : Nat) (field_specification : Nat × Nat)
  | Mult (address : Nat) (field_specification : Nat × Nat)
  | Div (address : Nat) (field_specification : Nat × Nat)
  | EntA (value : Nat) (entry_is_positive : Bool) (should_negate : Bool)
  | EntX (value : Nat) (entry_is_positive : Bool) (should_negate : Bool)
  | EntI (index : Nat) (value : Nat) (entry_is_positive : Bool) (should_negate : Bool)
  | IncA (value : Nat) (entry_is_positive : Bool) (should_negate : Bool)
  | IncX (value : Nat) (entry_is_positive : Bool) (should_negate : Bool)
  | IncI (index : Nat) (value : Nat) (entry_is_positive : Bool) (should_negate : Bool)
  | CmpA (address : Nat) (field_specification : Nat × Nat)
  | CmpX (address : Nat) (field_specification : Nat × Nat)
  | CmpI (index : Nat) (address : Nat) (field_specification : Nat × Nat)
  | Jmp (address : Nat) (save_address : Bool)
  | JmpO (address : Nat) (should_negate : Bool)
  | JmpC (address : Nat) (operation : Nat)
  | JmpA (address : Nat) (operation : Nat)
  deriving DecidableEq, Repr

/-- Computer::decode (src/computer.rs lines 85-151): resolve the index
offset (which may fault), decode the field byte, and dispatch on opcode
(and for several opcodes the raw field byte).  Note the opcode-39 arms
bind the raw, un-offset address. -/
def decode (c : Computer) (instruction : Word) : Option Instruction :=
  let address := instruction.address
  let index := instruction.index
  let field := instruction.field
  let opcode := instruction.opcode
  match decode_index c index with
  | none => none
  | some off =>
    let offset_address := address + off
    let field_specification := decode_field field
    let positive := instruction.positive
    some (match opcode, field with
      | 1, _ => .Add offset_address field_specification
      | 2, _ => .Sub offset_address field_specification
      | 3, _ => .Mult offset_address field_specification
      | 4, _ => .Div offset_address field_specification
      | 5, 2 => .Halt
      | 5, _ => .NoOperation
      | 8, _ => .LoadA offset_address field_specification false
      | 9, _ | 10, _ | 11, _ | 12, _ | 13, _ | 14, _ =>
        .LoadI (opcode - 8) offset_address field_specification false
      | 15, _ => .LoadX offset_address field_specification false
      | 16, _ => .LoadA offset_address field_specification true
      | 17, _ | 18, _ | 19, _ | 20, _ | 21, _ | 22, _ =>
        .LoadI (opcode - 16) offset_address field_specification true
      | 23, _ => .LoadX offset_address field_specification true
      | 24, _ => .StoreA offset_address field_specification
      | 25, _ | 26, _ | 27, _ | 28, _ | 29, _ | 30, _ =>
        .StoreI (opcode - 24) offset_address field_specification
      | 31, _ => .StoreX offset_address field_specification
      | 32, _ => .StoreJ offset_address field_specification
      | 33, _ => .StoreZ offset_address field_specification
      | 39, 0 => .Jmp address true
      | 39, 1 => .Jmp address false
      | 39, 2 => .JmpO address false
      | 39, 3 => .JmpO address true
      | 39, 4 | 39, 5 | 39, 6 | 39, 7 | 39, 8 | 39, 9 => .JmpC address field
      | 39, _ => .NoOperation
      | 48, 0 => .IncA offset_address positive false
      | 48, 1 => .IncA offset_address positive true
      | 48, 2 => .EntA offset_address positive false
      | 48, 3 => .EntA offset_address positive true
      | 48, _ => .NoOperation
      | 49, 0 | 50, 0 | 51, 0 | 52, 0 | 53, 0 | 54, 0 =>
        .IncI (opcode - 48) offset_address positive false
      | 49, 1 | 50, 1 | 51, 1 | 52, 1 | 53, 1 | 54, 1 =>
        .IncI (opcode - 48) offset_address positive true
      | 49, 2 | 50, 2 | 51, 2 | 52, 2 | 53, 2 | 54, 2 =>
        .EntI (opcode - 48) offset_address positive false
      | 49, 3 | 50, 3 | 51, 3 | 52, 3 | 53, 3 | 54, 3 =>
        .EntI (opcode - 48) offset_address positive true
      | 49, _ | 50, _ | 51, _ | 52, _ | 53, _ | 54, _ => .NoOperation
      | 55, 0 => .IncX offset_address positive false
      | 55, 1 => .IncX offset_address positive true
      | 55, 2 => .EntX offset_address positive false
      | 55, 3 => .EntX offset_address positive true
      | 55, _ => .NoOperation
      | 56, _ => .CmpA offset_address field_specification
      | 57, _ | 58, _ | 59, _ | 60, _ | 61, _ | 62, _ =>
        .CmpI (opcode - 56) offset_address field_specification
      | 63, _ => .CmpX offset_address field_specification
      | _, _ => .NoOperation)

/-- Guarded memory read: Rust indexing computer.memory[address] panics
outside 0..4000. -/
def mem_read (c : Computer) (address : Nat) : Option Word :=
  if address < 4000 then some (c.memory address) else none

/-- Guarded memory write, same bound as mem_read. -/
def mem_write (c : Computer) (address : Nat) (w : Word) : Option Computer :=
  if address < 4000 then
    some { c with memory := fun i => if i = address then w else c.memory i }
  else none

/-- save_jump (src/instruction.rs lines 328-331): copy
Word::from_value(pc + 1) into rj with field (0,5). -/
def save_jump (c : Computer) : Computer :=
  let old_address := Word.from_value ((c.pc : Int) + 1)
  { c with rj := copy_word_fields old_address c.rj (0, 5) }

/-- Build the immediate word of the address-transfer instructions
(src/instruction.rs EntA/EntX/EntI/IncA/IncX/IncI): Word::from_value of
the value with the sign replaced by the (possibly negated) entry sign. -/
def entry_word (value : Nat) (entry_is_positive should_negate : Bool) : Word :=
  let word := Word.from_value (value : Int)
  { word with positive := if should_negate then !entry_is_positive else entry_is_positive }

/-- execute_on (the Instruction trait impls of src/instruction.rs lines
339-509): one state transformer per instruction struct; none models a
panic (bad memory index, invalid index register, sign-only arithmetic
field, store-range underflow). -/
def execute_on (inst : Instruction) (c : Computer) : Option Computer :=
  match inst with
  | .NoOperation => some c
  | .Halt => some { c with pc := 4000 }
  | .LoadA address fs negative =>
    match mem_read c address with
    | none => none
    | some mem =>
      let ra := copy_word_fields mem c.ra fs
      let ra := if negative then { ra with positive := !ra.positive } else ra
      some { c with ra := ra }
  | .LoadX address fs negative =>
    match mem_read c address with
    | none => none
    | some mem =>
      let rx := copy_word_fields mem c.rx fs
      let rx := if negative then { rx with positive := !rx.positive } else rx
      some { c with rx := rx }
  | .LoadI index address fs negative =>
    match mem_read c address with
    | none => none
    | some mem =>
      match register_for_index c index with
      | none => none
      | some ri =>
        match copy_word_fields_i mem ri fs with
        | none => none
        | some ri =>
          let ri := if negative then { ri with positive := !ri.positive } else ri
          set_register_for_index c index ri
  | .StoreA address fs =>
    match mem_read c address with
    | none => none
    | some mem =>
      match store_operation c.ra mem fs with
      | none => none
      | some w => mem_write c address w
  | .StoreX address fs =>
    match mem_read c address with
    | none => none
    | some mem =>
      match store_operation c.rx mem fs with
      | none => none
      | some w => mem_write c address w
  | .StoreI index address fs =>
    match register_for_index c index with
    | none => none
    | some reg_clone =>
      match mem_read c address with
      | none => none
      | some mem =>
        match store_operation reg_clone mem fs with
        | none => none
        | some w => mem_write c address w
  | .StoreJ address fs =>
    match mem_read c address with
    | none => none
    | some mem =>
      match store_operation c.rj mem fs with
      | none => none
      | some w => mem_write c address w
  | .StoreZ address fs =>
    match mem_read c address with
    | none => none
    | some mem =>
      match store_operation Word.default mem fs with
      | none => none
      | some w => mem_write c address w
  | .Add address fs =>
    match mem_read c address with
    | none => none
    | some mem =>
      match add_words c.ra mem fs with
      | none => none
      | some (value, overflow) =>
        some { c with ra := copy_word_fields value c.ra fs, overflow_flag := overflow }
  | .Sub address fs =>
    match mem_read c address with
    | none => none
    | some mem =>
      match add_words c.ra mem.negate fs with
      | none => none
      | some (value, overflow) =>
        some { c with ra := copy_word_fields value c.ra fs, overflow_flag := overflow }
  | .Mult address fs =>
    match mem_read c address with
    | none => none
    | some mem =>
      match multiply_words c.ra mem.negate fs with
      | none => none
      | some (lower_value, upper_value) =>
        some { c with rx := copy_word_fields lower_value c.rx (0, 5),
                      ra := copy_word_fields upper_value c.ra (0, 5) }
  | .Div address fs =>
    match mem_read c address with
    | none => none
    | some mem =>
      match divide_words c.ra c.rx mem.negate fs with
      | none => none
      | some (dividend, remainder, overflow) =>
        some { c with rx := copy_word_fields remainder c.rx (0, 5),
                      ra := copy_word_fields dividend c.ra (0, 5),
                      overflow_flag := overflow }
  | .EntA value pos neg =>
    some { c with ra := copy_word_fields (entry_word value pos neg) c.ra (0, 5) }
  | .EntX value pos neg =>
    some { c with rx := copy_word_fields (entry_word value pos neg) c.rx (0, 5) }
  | .EntI index value pos neg =>
    match register_for_index c index with
    | none => none
    | some ri =>
      match copy_word_fields_i (entry_word value pos neg) ri (0, 5) with
      | none => none
      | some ri => set_register_for_index c index ri
  | .IncA value pos neg =>
    match add_words c.ra (entry_word value pos neg) (0, 5) with
    | none => none
    | some (value, overflow) =>
      some { c with ra := copy_word_fields value c.ra (0, 5), overflow_flag := overflow }
  | .IncX value pos neg =>
    match add_words c.rx (entry_word value pos neg) (0, 5) with
    | none => none
    | some (value, overflow) =>
      some { c with rx := copy_word_fields value c.rx (0, 5), overflow_flag := overflow }
  | .IncI index value pos neg =>
    match register_for_index c index with
    | none => none
    | some ri =>
      match add_words ri (entry_word value pos neg) (0, 5) with
      | none => none
      | some (value, overflow) =>
        match set_register_for_index c index (copy_word_fields value ri (0, 5)) with
        | none => none
        | some c => some { c with overflow_flag := overflow }
  | .CmpA address fs =>
    match mem_read c address with
    | none => none
    | some mem =>
      some { c with comparison_flag := compare_words c.ra mem fs }
  | .CmpX address fs =>
    match mem_read c address with
    | none => none
    | some mem =>
      some { c with comparison_flag := compare_words c.rx mem fs }
  | .CmpI index address fs =>
    match mem_read c address with
    | none => none
    | some mem =>
      match register_for_index c index with
      | none => none
      | some ri =>
        some { c with comparison_flag := compare_words ri mem fs }
  | .Jmp address save_address =>
    let c := if save_address then save_jump c else c
    some { c with pc := address }
  | .JmpO address should_negate =>
    let c := if c.overflow_flag != should_negate then
        { (save_jump c) with pc := address }
      else c
    some { c with overflow_flag := false }
  | .JmpC address operation =>
    let condition : Bool :=
      match operation with
      | 4 => c.comparison_flag == ComparisonFlag.less
      | 5 => c.comparison_flag == ComparisonFlag.equal
      | 6 => c.comparison_flag == ComparisonFlag.greater
      | 7 => c.comparison_flag != ComparisonFlag.greater
      | 8 => c.comparison_flag != ComparisonFlag.equal
      | 9 => c.comparison_flag != ComparisonFlag.less
      | _ => false
    if condition then some { (save_jump c) with pc := address }
    else some c
  | .JmpA _ _ => some c

/-- The address (or immediate-value) operand a decoded instruction was
bound with, when it has one; none for NoOperation and Halt. -/
def bound_address : Instruction → Option Nat
  | .NoOperation => none
  | .Halt => none
  | .LoadA a _ _ => some a
  | .LoadX a _ _ => some a
  | .LoadI _ a _ _ => some a
  | .StoreA a _ => some a
  | .StoreX a _ => some a
  | .StoreI _ a _ => some a
  | .StoreJ a _ => some a
  | .StoreZ a _ => some a
  | .Add a _ => some a
  | .Sub a _ => some a
  | .Mult a _ => some a
  | .Div a _ => some a
  | .EntA v _ _ => some v
  | .EntX v _ _ => some v
  | .EntI _ v _ _ => some v
  | .IncA v _ _ => some v
  | .IncX v _ _ => some v
  | .IncI _ v _ _ => some v
  | .CmpA a _ => some a
  | .CmpX a _ => some a
  | .CmpI _ a _ => some a
  | .Jmp a _ => some a
  | .JmpO a _ => some a
  | .JmpC a _ => some a
  | .JmpA a _ => some a

/-! Helper lemmas about the loop helpers. -/

theorem getD_set (dst : List Nat) (i j v : Nat) :
    (dst.set i v).getD j 0 = if i = j ∧ j < dst.length then v else dst.getD j 0 := by
  rw [List.getD_eq_getElem?_getD, List.getD_eq_getElem?_getD, List.getElem?_set]
  by_cases h : i = j
  · subst h
    by_cases hl : i < dst.length
    · simp [hl]
    · simp only [hl, if_false, and_false, if_neg]
      rw [List.getElem?_eq_none (by omega)]
      simp
  · simp [h]

theorem set_range_length (dst : List Nat) (f : Nat → Nat) (i n : Nat) :
    (set_range dst f i n).length = dst.length := by
  induction n generalizing dst i with
  | zero => rfl
  | succ n ih => rw [set_range, ih, List.length_set]

theorem set_range_getD (dst : List Nat) (f : Nat → Nat) (i n j : Nat) :
    (set_range dst f i n).getD j 0 =
      if i ≤ j ∧ j < i + n ∧ j < dst.length then f j else dst.getD j 0 := by
  induction n generalizing dst i with
  | zero =>
    rw [set_range]
    have : ¬(i ≤ j ∧ j < i + 0 ∧ j < dst.length) := by omega
    rw [if_neg this]
  | succ n ih =>
    rw [set_range, ih, List.length_set, getD_set]
    by_cases h1 : i = j
    · subst h1
      by_cases h2 : i < dst.length <;> simp [h2]
    · by_cases h2 : i + 1 ≤ j ∧ j < i + 1 + n ∧ j < dst.length
      · rw [if_pos h2, if_pos (by omega)]
      · rw [if_neg h2, if_neg (by omega), if_neg (by omega)]

theorem write_bytes_rev_snd (b : List Nat) (v r n : Nat) :
    (write_bytes_rev b v r n).2 = v / 256 ^ n := by
  induction n generalizing b v r with
  | zero => simp [write_bytes_rev]
  | succ n ih =>
    rw [write_bytes_rev, ih, Nat.div_div_eq_div_mul, pow_succ, mul_comm (256 ^ n) 256]

theorem write_bytes_rev_fst_length (b : List Nat) (v r n : Nat) :
    (write_bytes_rev b v r n).1.length = b.length := by
  induction n generalizing b v r with
  | zero => rfl
  | succ n ih => rw [write_bytes_rev, ih, List.length_set]

theorem write_bytes_rev_getD (b : List Nat) (v r n j : Nat) (hn : n ≤ r + 1) :
    (write_bytes_rev b v r n).1.getD j 0 =
      if r + 1 - n ≤ j ∧ j ≤ r ∧ j < b.length then v / 256 ^ (r - j) % 256
      else b.getD j 0 := by
  induction n generalizing b v r with
  | zero =>
    rw [write_bytes_rev]
    have : ¬(r + 1 - 0 ≤ j ∧ j ≤ r ∧ j < b.length) := by omega
    rw [if_neg this]
  | succ n ih =>
    rw [write_bytes_rev, ih (b.set r (v % 256)) (v / 256) (r - 1) (by omega),
      List.length_set, getD_set]
    by_cases hj : (r - 1) + 1 - n ≤ j ∧ j ≤ r - 1 ∧ j < b.length
    · rw [if_pos hj, if_pos (by omega)]
      have hrj : r - j = (r - 1 - j) + 1 := by omega
      rw [hrj, pow_succ, mul_comm (256 ^ (r - 1 - j)) 256, ← Nat.div_div_eq_div_mul]
    · by_cases hjr : r = j ∧ j < b.length
      · rw [if_neg hj, if_pos hjr, if_pos (by omega)]
        obtain ⟨h1, _⟩ := hjr
        subst h1
        simp
      · rw [if_neg hj, if_neg hjr, if_neg (by omega)]

theorem gather_mod5_length (src dst : List Nat) (a i n : Nat) :
    (gather_mod5 src dst a i n).length = dst.length := by
  induction n generalizing dst i with
  | zero => rfl
  | succ n ih => rw [gather_mod5, ih, List.length_set]

theorem scatter_mod5_length (src dst : List Nat) (a i n : Nat) :
    (scatter_mod5 src dst a i n).length = dst.length := by
  induction n generalizing dst i with
  | zero => rfl
  | succ n ih => rw [scatter_mod5, ih, List.length_set]

theorem getD_eq_zero_list (b : List Nat) (hlen : b.length = 5)
    (h : ∀ j, j < 5 → b.getD j 0 = 0) : b = [0, 0, 0, 0, 0] := by
  have hrep : ([0, 0, 0, 0, 0] : List Nat) = List.replicate 5 0 := rfl
  rw [hrep]
  apply List.ext_getElem (by simp [hlen])
  intro n h1 h2
  have hb := h n (by omega)
  rw [List.getD_eq_getElem?_getD, List.getElem?_eq_getElem h1] at hb
  simp only [Option.getD_some] at hb
  rw [hb, List.getElem_replicate]

/-! Small characterization lemmas used by several claims. -/

theorem field_value_only_zero (w : Word) (L : Nat) : w.field_value (L, 0) = 0 := by
  simp [Word.field_value, adjusted_field_specification]

theorem register_for_index_ge7 (c : Computer) (n : Nat) (h : 7 ≤ n) :
    register_for_index c n = none := by
  match n, h with
  | n + 7, _ => rfl

theorem decode_eq_none (c : Computer) (w : Word)
    (h : decode_index c w.index = none) : decode c w = none := by
  simp only [decode, h]

/-! Claim theorems. -/

/-- Claim C1 (code bug): a taken jump stores pc+1 into rj, but
Word::from_value flags any non-negative value as negative, so rj reads as
-(pc+1), not pc+1 (the repository's own save_jump_test expects the
positive word and fails).  With pc = 20, the taken Jmp leaves
rj = (-, [0,0,0,0,21]), whose full-word value is -21. -/
theorem C1_taken_jump_saves_negated_pc :
    (execute_on (Instruction.Jmp 100 true) { Computer.default with pc := 20 }).map
      (fun c => (c.rj, c.pc)) = some (⟨false, [0, 0, 0, 0, 21]⟩, 100) ∧
    (⟨false, [0, 0, 0, 0, 21]⟩ : Word).field_value (0, 5) = -21 :=
  ⟨by decide, by decide⟩

/-- Claim C2 (counterexample): divide_words with a sign-only field
specification does not fail: the zero-divisor check runs first, the
windowed divisor value is 0, and the flagged default result is returned. -/
theorem C2_counterexample :
    divide_words ⟨true, [1, 1, 1, 1, 1]⟩ ⟨true, [2, 2, 2, 2, 2]⟩
      ⟨true, [3, 3, 3, 3, 3]⟩ (0, 0) = some (Word.default, Word.default, true) := by
  decide

/-- Claim C2 (amended): with an only_zero field specification (R = 0),
add_words and multiply_words fault, while divide_words returns the
default quotient and remainder with divide_by_zero = true, because its
zero-divisor check precedes the sign-only check. -/
theorem C2_sign_only_arithmetic (w1 w2 w3 : Word) (L R : Nat) (h : R = 0) :
    add_words w1 w2 (L, R) = none ∧
    multiply_words w1 w2 (L, R) = none ∧
    divide_words w1 w2 w3 (L, R) = some (Word.default, Word.default, true) := by
  subst h
  refine ⟨?_, ?_, ?_⟩
  · simp [add_words, adjusted_field_specification]
  · simp [multiply_words, adjusted_field_specification]
  · simp [divide_words, field_value_only_zero]

/-- Witness for C2_sign_only_arithmetic at field (3,0). -/
theorem C2_sign_only_arithmetic_witness :
    add_words ⟨true, [0, 0, 0, 9, 1]⟩ ⟨false, [1, 2, 3, 4, 5]⟩ (3, 0) = none ∧
    multiply_words ⟨true, [0, 0, 0, 9, 1]⟩ ⟨false, [1, 2, 3, 4, 5]⟩ (3, 0) = none ∧
    divide_words ⟨true, [0, 0, 0, 9, 1]⟩ ⟨false, [1, 2, 3, 4, 5]⟩
      ⟨true, [0, 0, 0, 0, 3]⟩ (3, 0) = some (Word.default, Word.default, true) :=
  C2_sign_only_arithmetic _ _ _ 3 0 rfl

/-- Claim C5 (code bug): the register-sign/zero jumps are not implemented:
opcode 40 (JMPA) decodes to NoOperation even when the register condition
holds (here ra is negative, field 0 = LESS would branch), and the JmpA
instruction leaves the machine state unchanged. -/
theorem C5_register_jumps_unimplemented :
    decode { Computer.default with ra := ⟨false, [0, 0, 0, 0, 1]⟩ }
      ⟨true, [0, 10, 0, 0, 40]⟩ = some Instruction.NoOperation ∧
    execute_on (Instruction.JmpA 10 0)
        { Computer.default with ra := ⟨false, [0, 0, 0, 0, 1]⟩ } =
      some { Computer.default with ra := ⟨false, [0, 0, 0, 0, 1]⟩ } :=
  ⟨by decide, rfl⟩

/-- Claim C7 (counterexample): the non-cyclic left shift by 6 does not
return a zero-magnitude word: the usize expression 5 - amount underflows
and the function faults. -/
theorem C7_counterexample :
    single_word_left_shift ⟨true, [1, 2, 3, 4, 5]⟩ 6 false = none := by
  decide

/-- Claim C10 (confirmed): store_operation is only total for L <= R: with
1 <= R < L the computation 4 - (r - l) underflows on r - l and the
function faults; the decoder can produce such specifications (field byte
26 decodes to (3,2)) and binds them to store instructions. -/
theorem C10_store_operation_underflow (f t : Word) (L R : Nat)
    (h1 : 1 ≤ R) (h2 : R < L) :
    store_operation f t (L, R) = none ∧
    decode_field 26 = (3, 2) ∧
    decode Computer.default ⟨true, [0, 10, 0, 26, 24]⟩ =
      some (Instruction.StoreA 10 (3, 2)) := by
  refine ⟨?_, by decide, by decide⟩
  unfold store_operation
  simp only [adjusted_field_specification]
  have h0 : ¬((L == 0) && (R == 0)) = true := by
    simp only [Bool.and_eq_true, beq_iff_eq]
    omega
  rw [if_neg h0, if_pos (by omega)]

/-- Witness for C10_store_operation_underflow at field (3,2). -/
theorem C10_store_operation_underflow_witness :
    store_operation ⟨true, [0, 0, 0, 9, 1]⟩ ⟨false, [1, 2, 3, 4, 5]⟩ (3, 2) = none ∧
    decode_field 26 = (3, 2) ∧
    decode Computer.default ⟨true, [0, 10, 0, 26, 24]⟩ =
      some (Instruction.StoreA 10 (3, 2)) :=
  C10_store_operation_underflow _ _ 3 2 (by decide) (by decide)

/-- Claim C4 (confirmed): divide_words returns the default quotient and
remainder with divide_by_zero = true exactly when the field-windowed
divisor value is zero, and otherwise returns some result with
divide_by_zero = false, never faulting in either case. -/
theorem C4_divide_by_zero_flag (hi lo d : Word) (L R : Nat)
    (hL : L ≤ 5) (hR : R ≤ 5) :
    (d.field_value (L, R) = 0 →
      divide_words hi lo d (L, R) = some (Word.default, Word.default, true)) ∧
    (d.field_value (L, R) ≠ 0 →
      ∃ q rem, divide_words hi lo d (L, R) = some (q, rem, false)) := by
  constructor
  · intro h
    unfold divide_words
    rw [if_pos h]
  · intro h
    have hR0 : (R == 0) = false := by
      simp only [beq_eq_false_iff_ne, ne_eq]
      intro h0
      subst h0
      exact h (field_value_only_zero d L)
    unfold divide_words
    rw [if_neg h]
    simp only [adjusted_field_specification, hR0]
    exact ⟨_, _, rfl⟩

/-- Witness for C4_divide_by_zero_flag: the zero-divisor case at divisor
(+,[0,0,0,0,0]) and the nonzero case at divisor (+,[0,0,0,0,3]). -/
theorem C4_divide_by_zero_flag_witness :
    divide_words ⟨true, [0, 0, 0, 0, 0]⟩ ⟨false, [0, 0, 0, 0, 17]⟩
      ⟨true, [0, 0, 0, 0, 0]⟩ (0, 5) = some (Word.default, Word.default, true) ∧
    ∃ q rem, divide_words ⟨true, [0, 0, 0, 0, 0]⟩ ⟨false, [0, 0, 0, 0, 17]⟩
      ⟨true, [0, 0, 0, 0, 3]⟩ (0, 5) = some (q, rem, false) := by
  constructor
  · exact (C4_divide_by_zero_flag _ _ _ 0 5 (by decide) (by decide)).1 (by decide)
  · exact (C4_divide_by_zero_flag _ _ _ 0 5 (by decide) (by decide)).2 (by decide)

theorem single_word_right_shift_noncycle (w : Word) (a : Nat) :
    single_word_right_shift w a false =
      { w with bytes := set_range (scatter_mod5 w.bytes w.bytes a 0 5) (fun _ => 0) 0 (min a 5) } := rfl

theorem single_word_left_shift_noncycle_le (w : Word) (a : Nat) (h : a ≤ 5) :
    single_word_left_shift w a false =
      some { w with bytes := set_range (gather_mod5 w.bytes w.bytes a 0 5) (fun _ => 0) (5 - a) (5 - (5 - a)) } := by
  simp only [single_word_left_shift]
  rw [if_neg Bool.false_ne_true, if_neg (by omega)]

theorem single_word_left_shift_gt5 (w : Word) (a : Nat) (h : 5 < a) :
    single_word_left_shift w a false = none := by
  simp only [single_word_left_shift]
  rw [if_neg Bool.false_ne_true, if_pos h]

/-- Claim C7 (amended): for amount >= 5, the non-cyclic right shift clears
all five magnitude bytes and keeps the sign; the non-cyclic left shift
does so at amount = 5 exactly, but for amount >= 6 it faults on the
underflowing usize expression 5 - amount instead of clearing. -/
theorem C7_shift_clearing (w : Word) (h5 : w.bytes.length = 5) (a : Nat)
    (ha : 5 ≤ a) :
    single_word_right_shift w a false = ⟨w.positive, [0, 0, 0, 0, 0]⟩ ∧
    single_word_left_shift w 5 false = some ⟨w.positive, [0, 0, 0, 0, 0]⟩ ∧
    (6 ≤ a → single_word_left_shift w a false = none) := by
  refine ⟨?_, ?_, fun h6 => single_word_left_shift_gt5 w a (by omega)⟩
  · rw [single_word_right_shift_noncycle]
    have hmin : min a 5 = 5 := by omega
    rw [hmin]
    have hz : set_range (scatter_mod5 w.bytes w.bytes a 0 5) (fun _ => 0) 0 5 =
        [0, 0, 0, 0, 0] := by
      apply getD_eq_zero_list
      · rw [set_range_length, scatter_mod5_length, h5]
      · intro j hj
        rw [set_range_getD,
          if_pos ⟨Nat.zero_le j, by omega, by rw [scatter_mod5_length, h5]; omega⟩]
    rw [hz]
  · rw [single_word_left_shift_noncycle_le w 5 (le_refl 5)]
    have hz : set_range (gather_mod5 w.bytes w.bytes 5 0 5) (fun _ => 0)
        (5 - 5) (5 - (5 - 5)) = [0, 0, 0, 0, 0] := by
      apply getD_eq_zero_list
      · rw [set_range_length, gather_mod5_length, h5]
      · intro j hj
        rw [set_range_getD,
          if_pos ⟨by omega, by omega, by rw [gather_mod5_length, h5]; omega⟩]
    rw [hz]

/-- Witness for C7_shift_clearing at word (+,[1,2,3,4,5]) and amount 7. -/
theorem C7_shift_clearing_witness :
    single_word_right_shift ⟨true, [1, 2, 3, 4, 5]⟩ 7 false = ⟨true, [0, 0, 0, 0, 0]⟩ ∧
    single_word_left_shift ⟨true, [1, 2, 3, 4, 5]⟩ 5 false = some ⟨true, [0, 0, 0, 0, 0]⟩ ∧
    (6 ≤ 7 → single_word_left_shift ⟨true, [1, 2, 3, 4, 5]⟩ 7 false = none) :=
  C7_shift_clearing ⟨true, [1, 2, 3, 4, 5]⟩ rfl 7 (by decide)

/-- Claim C8 (confirmed): during decode, index byte 0 contributes offset
0; an index byte in 1..6 contributes the selected index register's
field_value (3,4); and an index byte of 7 or more makes decoding fail
(register_for_index panics, modelled as none). -/
theorem C8_index_resolution (c : Computer) (w : Word) :
    (w.index = 0 → decode_index c w.index = some 0) ∧
    (1 ≤ w.index → w.index ≤ 6 →
      ∃ ri, register_for_index c w.index = some ri ∧
        decode_index c w.index = some (ri.field_value (3, 4)).toNat) ∧
    (7 ≤ w.index → decode_index c w.index = none ∧ decode c w = none) := by
  refine ⟨?_, ?_, ?_⟩
  · intro h
    rw [h]
    rfl
  · intro h1 h6
    have hc : w.index = 1 ∨ w.index = 2 ∨ w.index = 3 ∨ w.index = 4 ∨
        w.index = 5 ∨ w.index = 6 := by omega
    rcases hc with h | h | h | h | h | h <;> rw [h] <;> exact ⟨_, rfl, rfl⟩
  · intro h7
    have hnone : decode_index c w.index = none := by
      unfold decode_index
      rw [if_neg (by omega), register_for_index_ge7 c w.index h7]
    exact ⟨hnone, decode_eq_none c w hnone⟩

/-- Witness for C8_index_resolution: index byte 7 aborts the decode. -/
theorem C8_index_resolution_witness :
    decode Computer.default ⟨true, [0, 10, 7, 5, 1]⟩ = none :=
  ((C8_index_resolution Computer.default ⟨true, [0, 10, 7, 5, 1]⟩).2.2 (by decide)).2

theorem store_operation_eq_some (f t : Word) (L R : Nat)
    (hR1 : 1 ≤ R) (hLR : L ≤ R) (hR5 : R ≤ 5) :
    store_operation f t (L, R) =
      some { positive := if L = 0 then f.positive else t.positive,
             bytes := set_range t.bytes
               (fun i => f.bytes.getD (4 - (R - 1 - (max L 1 - 1)) + (i - (max L 1 - 1))) 0)
               (max L 1 - 1) (R - 1 - (max L 1 - 1) + 1) } := by
  unfold store_operation
  simp only [adjusted_field_specification]
  have hR0 : (R == 0) = false := by
    simp only [beq_eq_false_iff_ne, ne_eq]
    omega
  have hmaxR : max R 1 = R := by omega
  rw [hmaxR, hR0, Bool.and_false, if_neg Bool.false_ne_true,
    if_neg (by omega : ¬(R - 1 < max L 1 - 1)), if_neg (by omega : ¬(4 < R - 1 - (max L 1 - 1)))]
  by_cases hL0 : L = 0
  · subst hL0
    simp
  · have hLb : ¬((L == 0) = true) := by
      simp only [beq_iff_eq]
      omega
    rw [if_neg hLb, if_neg hL0]

/-- Claim C6 (confirmed): store_operation with L <= R <= 5 right-justifies
the source: destination byte i in the adjusted window l..=r receives
source byte i + 5 - R (i.e. the low-order r-l+1 source bytes land in the
window), the sign is copied only when L = 0, the operation stops after the
sign when R = 0, and every other destination byte is unchanged. -/
theorem C6_store_operation_window (f t : Word) (hf : f.bytes.length = 5)
    (ht : t.bytes.length = 5) (L R : Nat) (hLR : L ≤ R) (hR : R ≤ 5) :
    ∃ w, store_operation f t (L, R) = some w ∧
      w.positive = (if L = 0 then f.positive else t.positive) ∧
      (∀ i, i < 5 →
        w.bytes.getD i 0 =
          if 1 ≤ R ∧ max L 1 - 1 ≤ i ∧ i ≤ R - 1 then f.bytes.getD (i + 5 - R) 0
          else t.bytes.getD i 0) := by
  by_cases hR0 : R = 0
  · have hL0 : L = 0 := by omega
    subst hR0
    subst hL0
    refine ⟨{ t with positive := f.positive }, rfl, by simp, ?_⟩
    intro i hi
    rw [if_neg (by omega)]
  · rw [store_operation_eq_some f t L R (by omega) hLR hR]
    refine ⟨_, rfl, rfl, ?_⟩
    intro i hi
    rw [set_range_getD]
    by_cases h : max L 1 - 1 ≤ i ∧ i ≤ R - 1
    · rw [if_pos ⟨h.1, by omega, by omega⟩, if_pos ⟨by omega, h.1, h.2⟩]
      congr 1
      omega
    · rw [if_neg (by omega), if_neg (by omega)]

/-- Witness for C6_store_operation_window: Scenario 3 of the spec, field
(5,5): only the last byte is overwritten, sign untouched. -/
theorem C6_store_operation_window_witness :
    ∃ w, store_operation ⟨true, [0, 0, 0, 9, 1]⟩ ⟨false, [1, 2, 3, 4, 5]⟩ (5, 5) = some w ∧
      w.positive = (if 5 = 0 then true else false) ∧
      (∀ i, i < 5 →
        w.bytes.getD i 0 =
          if 1 ≤ 5 ∧ max 5 1 - 1 ≤ i ∧ i ≤ 5 - 1
          then ([0, 0, 0, 9, 1] : List Nat).getD (i + 5 - 5) 0
          else ([1, 2, 3, 4, 5] : List Nat).getD i 0) :=
  C6_store_operation_window ⟨true, [0, 0, 0, 9, 1]⟩ ⟨false, [1, 2, 3, 4, 5]⟩ rfl rfl
    5 5 (le_refl 5) (le_refl 5)

theorem copy_word_fields_full_getD (src dst : Word) (hdst : dst.bytes.length = 5) :
    (copy_word_fields src dst (0, 5)).positive = src.positive ∧
    ∀ i, i < 5 → (copy_word_fields src dst (0, 5)).bytes.getD i 0 = src.bytes.getD i 0 := by
  have hred : copy_word_fields src dst (0, 5) =
      { positive := src.positive,
        bytes := set_range dst.bytes (fun i => src.bytes.getD i 0) 0 5 } := rfl
  rw [hred]
  refine ⟨rfl, ?_⟩
  intro i hi
  rw [set_range_getD, if_pos ⟨Nat.zero_le i, by omega, by omega⟩]

theorem multiply_words_bytes (w1 w2 : Word) (L R : Nat) (hR : R ≠ 0) :
    ∃ up low, multiply_words w1 w2 (L, R) = some (up, low) ∧
      ∀ k, k < 5 →
        low.bytes.getD (4 - k) 0 =
          (w1.field_value (0, 5) * w2.field_value (L, R)).natAbs / 256 ^ k % 256 ∧
        up.bytes.getD (4 - k) 0 =
          (w1.field_value (0, 5) * w2.field_value (L, R)).natAbs / 256 ^ (k + 5) % 256 := by
  unfold multiply_words
  simp only [adjusted_field_specification]
  have hR0 : ¬((R == 0) = true) := by
    simp only [beq_iff_eq]
    omega
  rw [if_neg hR0]
  simp only [apply_ite Word.bytes, ite_self]
  refine ⟨_, _, rfl, ?_⟩
  intro k hk
  have hlen : ({ Word.default with positive := decide (0 ≤ w1.field_value (0, 5) * w2.field_value (L, R)) } : Word).bytes.length = 5 := rfl
  constructor
  · rw [write_bytes_rev_getD _ _ _ _ _ (by omega),
      if_pos ⟨by omega, by omega, by simp only [Word.default]; simp; omega⟩]
    have h4 : 4 - (4 - k) = k := by omega
    rw [h4]
  · rw [write_bytes_rev_getD _ _ _ _ _ (by omega),
      if_pos ⟨by omega, by omega, by simp only [Word.default]; simp; omega⟩]
    rw [write_bytes_rev_snd]
    have h4 : 4 - (4 - k) = k := by omega
    rw [h4, Nat.div_div_eq_div_mul, ← pow_add, Nat.add_comm 5 k]

/-- Claim C9 (confirmed): the Mult instruction destructures the
(upper, lower) pair of multiply_words as (lower_value, upper_value),
writing the first component to rx and the second to ra; consequently
after execution ra holds the LOW five bytes and rx the HIGH five bytes of
the ten-byte absolute product of the old accumulator's full (0,5) value
and the negated memory operand's field-windowed value. -/
theorem C9_mult_register_split (c : Computer) (addr L R : Nat) (hR0 : R ≠ 0)
    (haddr : addr < 4000) (hra : c.ra.bytes.length = 5) (hrx : c.rx.bytes.length = 5) :
    ∃ c2, execute_on (Instruction.Mult addr (L, R)) c = some c2 ∧
      (∀ k, k < 5 → c2.ra.bytes.getD (4 - k) 0 =
        (c.ra.field_value (0, 5) * ((c.memory addr).negate.field_value (L, R))).natAbs
          / 256 ^ k % 256) ∧
      (∀ k, k < 5 → c2.rx.bytes.getD (4 - k) 0 =
        (c.ra.field_value (0, 5) * ((c.memory addr).negate.field_value (L, R))).natAbs
          / 256 ^ (k + 5) % 256) := by
  obtain ⟨up, low, hmul, hbytes⟩ :=
    multiply_words_bytes c.ra (c.memory addr).negate L R hR0
  have hm : mem_read c addr = some (c.memory addr) := by
    unfold mem_read
    rw [if_pos haddr]
  have hexec : execute_on (Instruction.Mult addr (L, R)) c =
      some { c with rx := copy_word_fields up c.rx (0, 5),
                    ra := copy_word_fields low c.ra (0, 5) } := by
    simp only [execute_on, hm, hmul]
  refine ⟨_, hexec, ?_, ?_⟩
  · intro k hk
    show (copy_word_fields low c.ra (0, 5)).bytes.getD (4 - k) 0 = _
    rw [(copy_word_fields_full_getD low c.ra hra).2 (4 - k) (by omega)]
    exact (hbytes k hk).1
  · intro k hk
    show (copy_word_fields up c.rx (0, 5)).bytes.getD (4 - k) 0 = _
    rw [(copy_word_fields_full_getD up c.rx hrx).2 (4 - k) (by omega)]
    exact (hbytes k hk).2

/-- Claim C3 (counterexample): with index byte 1 and ri1 offset 5, the
opcode-39 word with address field 10 decodes to Jmp bound with the raw
address 10, not the offset address 15. -/
theorem C3_counterexample :
    decode { Computer.default with ri1 := ⟨true, [0, 0, 0, 5, 0]⟩ }
      ⟨true, [0, 10, 1, 0, 39]⟩ = some (Instruction.Jmp 10 true) ∧
    decode_index { Computer.default with ri1 := ⟨true, [0, 0, 0, 5, 0]⟩ } 1 = some 5 :=
  ⟨by decide, by decide⟩

set_option maxHeartbeats 2000000 in
/-- Claim C3 (amended): for a fetched word with index byte in 1..6, every
decoded instruction carrying an address operand is bound with the
already-offset address (address field plus the selected index register's
field_value (3,4)), except the opcode-39 jump instructions, which are
bound with the raw un-offset address field. -/
theorem C3_offset_except_jumps (c : Computer) (w : Word)
    (h1 : 1 ≤ w.index) (h6 : w.index ≤ 6) :
    ∀ inst, decode c w = some inst →
      ∀ a, bound_address inst = some a →
        ∃ ri, register_for_index c w.index = some ri ∧
          a = (if w.opcode = 39 then w.address
               else w.address + (ri.field_value (3, 4)).toNat) := by
  intro inst hinst a ha
  have hc : w.index = 1 ∨ w.index = 2 ∨ w.index = 3 ∨ w.index = 4 ∨
      w.index = 5 ∨ w.index = 6 := by omega
  have H : ∃ ri, register_for_index c w.index = some ri ∧
      decode_index c w.index = some (ri.field_value (3, 4)).toNat := by
    rcases hc with h | h | h | h | h | h <;> rw [h] <;> exact ⟨_, rfl, rfl⟩
  obtain ⟨ri, hri, hdi⟩ := H
  refine ⟨ri, hri, ?_⟩
  simp only [decode, hdi, Option.some.injEq] at hinst
  subst hinst
  split at ha <;>
    simp only [bound_address, Option.some.injEq, reduceCtorEq] at ha <;>
    (try subst ha) <;>
    first
      | rw [if_neg (by omega)]
      | rw [if_pos (by omega)]

/-- Witness for C3_offset_except_jumps: opcode 1 (ADD) with index 1 and
ri1 offset 5 is bound with offset address 15 = 10 + 5. -/
theorem C3_offset_except_jumps_witness :
    ∃ ri, register_for_index { Computer.default with ri1 := ⟨true, [0, 0, 0, 5, 0]⟩ }
        (Word.index ⟨true, [0, 10, 1, 5, 1]⟩) = some ri ∧
      (15 : Nat) = (if Word.opcode ⟨true, [0, 10, 1, 5, 1]⟩ = 39
           then Word.address ⟨true, [0, 10, 1, 5, 1]⟩
           else Word.address ⟨true, [0, 10, 1, 5, 1]⟩ + (ri.field_value (3, 4)).toNat) :=
  C3_offset_except_jumps { Computer.default with ri1 := ⟨true, [0, 0, 0, 5, 0]⟩ }
    ⟨true, [0, 10, 1, 5, 1]⟩ (by decide) (by decide)
    (Instruction.Add 15 (0, 5)) (by decide) 15 (by decide)

/-- Witness for C9_mult_register_split: ra = (+,[1,1,1,1,1]) multiplied
with memory (-,[1,1,1,1,1]) at address 2000 (negated by Mult), field (0,5). -/
theorem C9_mult_register_split_witness :
    ∃ c2, execute_on (Instruction.Mult 2000 (0, 5))
        { Computer.default with ra := ⟨true, [1, 1, 1, 1, 1]⟩,
                                memory := fun i => if i = 2000 then ⟨false, [1, 1, 1, 1, 1]⟩ else Word.default } =
      some c2 ∧
      (∀ k, k < 5 → c2.ra.bytes.getD (4 - k) 0 =
        ((Word.field_value ⟨true, [1, 1, 1, 1, 1]⟩ (0, 5)) *
          (((fun i => if i = 2000 then (⟨false, [1, 1, 1, 1, 1]⟩ : Word) else Word.default) 2000).negate.field_value (0, 5))).natAbs
          / 256 ^ k % 256) ∧
      (∀ k, k < 5 → c2.rx.bytes.getD (4 - k) 0 =
        ((Word.field_value ⟨true, [1, 1, 1, 1, 1]⟩ (0, 5)) *
          (((fun i => if i = 2000 then (⟨false, [1, 1, 1, 1, 1]⟩ : Word) else Word.default) 2000).negate.field_value (0, 5))).natAbs
          / 256 ^ (k + 5) % 256) :=
  C9_mult_register_split
    { Computer.default with ra := ⟨true, [1, 1, 1, 1, 1]⟩,
                            memory := fun i => if i = 2000 then ⟨false, [1, 1, 1, 1, 1]⟩ else Word.default }
    2000 0 5 (by decide) (by decide) (by decide) (by decide)
